import Mathlib

/- Verification of the kitties pallet (src/lesson6/pallets/kitties/src/lib.rs).

   The pallet keeps, per owner, a doubly-linked list of owned kitty ids stored
   as point entries of a key-value map keyed by `(AccountId, Option KittyId)`;
   the key with second component `none` is the sentinel holding head/tail
   pointers.  We embed `KittyId` and `AccountId` as `Nat` (the test runtime in
   lib.rs instantiates them with `u32` and `u64`), the `OwnedKitties` storage
   map as a function `Nat → Option Nat → Option KittyLinkedItem`, and each
   storage primitive (`get`, `insert`, `take`) as the corresponding pure state
   transformation.  Dispatch errors abort the whole call with every speculative
   write discarded (the host runtime's transactional semantics), so fallible
   operations return `Except KittyError _` and an error result carries no
   state. -/

namespace KittiesPallet

/-- Mirrors `KittyLinkedItem<T>` of lib.rs: one node of the per-owner doubly
linked list, holding optional neighbour kitty ids. -/
structure KittyLinkedItem where
  prev : Option Nat
  next : Option Nat
deriving DecidableEq

/-- Mirrors `Error<T>` of lib.rs (`decl_error!`). -/
inductive KittyError where
  | KittiesCountOverflow
  | InvalidKittyId
  | RequireDifferentParent
  | RequireOwner
deriving DecidableEq

/-- The `OwnedKitties` storage map of lib.rs: a map from
`(AccountId, Option KittyId)` to `Option KittyLinkedItem` (absent keys read as
`none`), embedded as a curried function. -/
def Store : Type := Nat → Option Nat → Option KittyLinkedItem

/-- The empty storage: no key has a value. -/
def emptyStore : Store := fun _ _ => none

/-- Mirrors `OwnedKitties::read`: `get` on the map, defaulting an absent value
to the all-`none` node. -/
def read (s : Store) (account : Nat) (key : Option Nat) : KittyLinkedItem :=
  (s account key).getD { prev := none, next := none }

/-- Mirrors `OwnedKitties::write`: `insert` on the map. -/
def write (s : Store) (account : Nat) (key : Option Nat) (item : KittyLinkedItem) : Store :=
  fun a k => if a = account ∧ k = key then some item else s a k

/-- The state effect of `StorageMap::take`: the entry at the key is deleted
(taking an absent key touches nothing). -/
def eraseKey (s : Store) (account : Nat) (key : Option Nat) : Store :=
  fun a k => if a = account ∧ k = key then none else s a k

/-- Mirrors `OwnedKitties::append` of lib.rs: read the sentinel, point its
tail at the new id, fix the old tail's forward link (which re-targets the
sentinel itself when the list was empty), then write the new node. -/
def append (s : Store) (account : Nat) (kitty_id : Nat) : Store :=
  let head := read s account none
  let s1 := write s account none { prev := some kitty_id, next := head.next }
  let prev := read s1 account head.prev
  let s2 := write s1 account head.prev { prev := prev.prev, next := some kitty_id }
  write s2 account (some kitty_id) { prev := head.prev, next := none }

/-- Mirrors `OwnedKitties::remove` of lib.rs: `take` the node; when present,
splice its two neighbours together (either neighbour read/write lands on the
sentinel when the corresponding pointer is `none`); when absent, a no-op. -/
def remove (s : Store) (account : Nat) (kitty_id : Nat) : Store :=
  match s account (some kitty_id) with
  | none => s
  | some item =>
    let s1 := eraseKey s account (some kitty_id)
    let prev := read s1 account item.prev
    let s2 := write s1 account item.prev { prev := prev.prev, next := item.next }
    let next := read s2 account item.next
    write s2 account item.next { prev := item.prev, next := next.next }

/-- Mirrors the `transfer` dispatchable of lib.rs: `take` the sender's node
for the kitty; if a node was taken, require that it has a non-`none` `prev` or
`next` pointer, else fail with `RequireOwner`; then append the id to the
recipient's list and run `remove` for the sender (a no-op on the already-taken
key).  An error aborts the call with all writes discarded, so the error branch
returns no state.  (`dest` stands for the `to` parameter of the source.) -/
def transfer (s : Store) (sender dest kitty_id : Nat) : Except KittyError Store :=
  match s sender (some kitty_id) with
  | some item =>
    if item.prev ≠ none ∨ item.next ≠ none then
      let s1 := eraseKey s sender (some kitty_id)
      Except.ok (remove (append s1 dest kitty_id) sender kitty_id)
    else
      Except.error KittyError.RequireOwner
  | none =>
    Except.ok (remove (append s dest kitty_id) sender kitty_id)

/-- Mirrors `combine_dna` of lib.rs on one byte:
`(selector & dna1) | (!selector & dna2)`, with `u8` complement embedded as
`255 ^^^ selector`. -/
def combine_dna (dna1 dna2 selector : Nat) : Nat :=
  (selector &&& dna1) ||| ((255 ^^^ selector) &&& dna2)

/-- The byte-wise DNA combination loop of `do_breed` over the 16-byte arrays,
embedded over byte lists. -/
def combine_dna_bytes : List Nat → List Nat → List Nat → List Nat
  | d1 :: dna1, d2 :: dna2, sel :: selector =>
    combine_dna d1 d2 sel :: combine_dna_bytes dna1 dna2 selector
  | _, _, _ => []

/-- The whole pallet storage: the `Kitties` map (id to 16-byte DNA), the
`KittiesCount` counter, and the `OwnedKitties` linked-list map. -/
structure RegistryState where
  kitties : Nat → Option (List Nat)
  kittiesCount : Nat
  owned : Store

/-- Mirrors `next_kitty_id` of lib.rs: the current count is the candidate id;
fail with `KittiesCountOverflow` when it equals the id type's maximum value
(`maxId` stands for `T::KittyId::max_value()`).  No state is touched. -/
def next_kitty_id (maxId : Nat) (st : RegistryState) : Except KittyError Nat :=
  if st.kittiesCount = maxId then
    Except.error KittyError.KittiesCountOverflow
  else
    Except.ok st.kittiesCount

/-- Mirrors `insert_kitty` of lib.rs: store the DNA at the id, set the count
to `id + 1`, and append the id to the owner's list. -/
def insert_kitty (st : RegistryState) (owner kitty_id : Nat) (dna : List Nat) : RegistryState :=
  { kitties := fun i => if i = kitty_id then some dna else st.kitties i
    kittiesCount := kitty_id + 1
    owned := append st.owned owner kitty_id }

/-- Mirrors the `create` dispatchable of lib.rs: allocate the next id (the
overflow error aborts everything with no write), then insert the kitty.  The
DNA is drawn from the external entropy source (`random_value`), so it enters
the model as the argument `dna`. -/
def create (maxId : Nat) (st : RegistryState) (sender : Nat) (dna : List Nat) :
    Except KittyError RegistryState :=
  match next_kitty_id maxId st with
  | Except.error e => Except.error e
  | Except.ok kitty_id => Except.ok (insert_kitty st sender kitty_id dna)

/-- Mirrors `do_breed` of lib.rs: look up both parents (`InvalidKittyId` when
absent), require distinct parents (`RequireDifferentParent`), allocate the
next id, combine the parents' DNA under the entropy-drawn `selector`, and
insert the new kitty owned by the sender. -/
def do_breed (maxId : Nat) (st : RegistryState) (sender kitty_id_1 kitty_id_2 : Nat)
    (selector : List Nat) : Except KittyError RegistryState :=
  match st.kitties kitty_id_1 with
  | none => Except.error KittyError.InvalidKittyId
  | some kitty1 =>
    match st.kitties kitty_id_2 with
    | none => Except.error KittyError.InvalidKittyId
    | some kitty2 =>
      if kitty_id_1 = kitty_id_2 then
        Except.error KittyError.RequireDifferentParent
      else
        match next_kitty_id maxId st with
        | Except.error e => Except.error e
        | Except.ok kitty_id =>
          Except.ok (insert_kitty st sender kitty_id (combine_dna_bytes kitty1 kitty2 selector))

/-- Fold of `append`: append each id of the list in turn to one owner's list. -/
def appendAll (s : Store) (account : Nat) (ids : List Nat) : Store :=
  ids.foldl (fun st i => append st account i) s

/-- Fold of `remove`: remove each id of the list in turn from one owner's
list. -/
def removeAll (s : Store) (account : Nat) (ids : List Nat) : Store :=
  ids.foldl (fun st i => remove st account i) s

/-- Walk forward: follow `next` pointers starting from the given key, emitting
each visited id; `fuel` bounds the number of steps. -/
def walkNextFrom (s : Store) (account : Nat) : Option Nat → Nat → List Nat
  | _, 0 => []
  | none, _ + 1 => []
  | some i, fuel + 1 => i :: walkNextFrom s account (read s account (some i)).next fuel

/-- Walk backward: follow `prev` pointers starting from the given key. -/
def walkPrevFrom (s : Store) (account : Nat) : Option Nat → Nat → List Nat
  | _, 0 => []
  | none, _ + 1 => []
  | some i, fuel + 1 => i :: walkPrevFrom s account (read s account (some i)).prev fuel

/-- Walk the owner's list forward from the sentinel's `next` pointer. -/
def walkNext (s : Store) (account : Nat) (fuel : Nat) : List Nat :=
  walkNextFrom s account (read s account none).next fuel

/-- Walk the owner's list backward from the sentinel's `prev` pointer. -/
def walkPrev (s : Store) (account : Nat) (fuel : Nat) : List Nat :=
  walkPrevFrom s account (read s account none).prev fuel

/-- First `some` of two options (`o` if it is `some`, else `p`). -/
def orD (o p : Option Nat) : Option Nat :=
  match o with
  | none => p
  | some x => some x

/-- Last element of the list, defaulting to `p` when the list is empty. -/
def lastD (p : Option Nat) : List Nat → Option Nat
  | [] => p
  | x :: xs => lastD (some x) xs

/-- Neighbours of `x` in the list when scanned with `p` as the id preceding
the list: `some (previous, following)` when `x` occurs, `none` otherwise. -/
def neighbors (p : Option Nat) : List Nat → Nat → Option (Option Nat × Option Nat)
  | [], _ => none
  | y :: ys, x => if y = x then some (p, ys.head?) else neighbors (some y) ys x

/-- The link node that the storage ought to contain at a key, for an owner
whose list of owned ids (in append order) is `L`: the sentinel holds the tail
and head ids, a member id holds its two neighbours, a non-member has no node. -/
def nodeOf (L : List Nat) : Option Nat → Option KittyLinkedItem
  | none => some { prev := lastD none L, next := L.head? }
  | some x => (neighbors none L x).map fun q => { prev := q.1, next := q.2 }

/-- Invariants I1 and I2 of the spec for one owner: `L` is duplicate-free and
every key of the owner's slice of the map holds exactly the node demanded by
`L` (the sentinel may also be absent when the list is empty and was never
written). -/
def represents (s : Store) (account : Nat) (L : List Nat) : Prop :=
  L.Nodup ∧ (∀ i, s account (some i) = nodeOf L (some i)) ∧
    (s account none = nodeOf L none ∨ (L = [] ∧ s account none = none))

theorem write_self (s : Store) (a : Nat) (k : Option Nat) (v : KittyLinkedItem) :
    write s a k v a k = some v := by
  simp [write]

theorem write_ne (s : Store) (a : Nat) (k : Option Nat) (v : KittyLinkedItem)
    (a' : Nat) (k' : Option Nat) (h : k' ≠ k) : write s a k v a' k' = s a' k' := by
  unfold write
  rw [if_neg (fun hc => h hc.2)]

theorem write_acct_ne (s : Store) (a : Nat) (k : Option Nat) (v : KittyLinkedItem)
    (a' : Nat) (k' : Option Nat) (h : a' ≠ a) : write s a k v a' k' = s a' k' := by
  unfold write
  rw [if_neg (fun hc => h hc.1)]

theorem eraseKey_self (s : Store) (a : Nat) (k : Option Nat) : eraseKey s a k a k = none := by
  simp [eraseKey]

theorem eraseKey_ne (s : Store) (a : Nat) (k : Option Nat)
    (a' : Nat) (k' : Option Nat) (h : k' ≠ k) : eraseKey s a k a' k' = s a' k' := by
  unfold eraseKey
  rw [if_neg (fun hc => h hc.2)]

theorem eraseKey_acct_ne (s : Store) (a : Nat) (k : Option Nat)
    (a' : Nat) (k' : Option Nat) (h : a' ≠ a) : eraseKey s a k a' k' = s a' k' := by
  unfold eraseKey
  rw [if_neg (fun hc => h hc.1)]

theorem orD_none_right (o : Option Nat) : orD o none = o := by
  cases o <;> rfl

theorem orD_some_left (x : Nat) (p : Option Nat) : orD (some x) p = some x := rfl

theorem head?_append_orD (X Y : List Nat) : (X ++ Y).head? = orD X.head? Y.head? := by
  cases X <;> rfl

theorem lastD_append : ∀ (X : List Nat) (p : Option Nat) (Y : List Nat),
    lastD p (X ++ Y) = lastD (lastD p X) Y
  | [], _, _ => rfl
  | x :: xs, p, Y => by
    simp only [List.cons_append, lastD]
    exact lastD_append xs (some x) Y

theorem lastD_irrel : ∀ (L : List Nat), L ≠ [] → ∀ p q : Option Nat, lastD p L = lastD q L
  | [], h, _, _ => absurd rfl h
  | _ :: _, _, _, _ => rfl

theorem lastD_reverse (R : List Nat) (p : Option Nat) : lastD p R.reverse = orD R.head? p := by
  cases R with
  | nil => rfl
  | cons x xs => rw [List.reverse_cons, lastD_append]; rfl

theorem lastD_split : ∀ (L : List Nat) (p : Option Nat) (t : Nat),
    lastD p L = some t → (L = [] ∧ p = some t) ∨ ∃ L1, L = L1 ++ [t]
  | [], _, _, h => Or.inl ⟨rfl, h⟩
  | x :: xs, p, t, h => by
    rcases lastD_split xs (some x) t h with ⟨hnil, hp⟩ | ⟨L1, hL⟩
    · subst hnil
      obtain rfl : x = t := Option.some.inj hp
      exact Or.inr ⟨[], rfl⟩
    · exact Or.inr ⟨x :: L1, by rw [hL, List.cons_append]⟩

theorem neighbors_not_mem : ∀ (L : List Nat) (p : Option Nat) (x : Nat),
    x ∉ L → neighbors p L x = none
  | [], _, _, _ => rfl
  | y :: ys, p, x, h => by
    have hy : y ≠ x := fun he => h (he ▸ List.mem_cons_self y ys)
    simp only [neighbors, if_neg hy]
    exact neighbors_not_mem ys (some y) x (fun hm => h (List.mem_cons_of_mem y hm))

theorem neighbors_split : ∀ (L1 : List Nat) (p : Option Nat) (x : Nat) (L2 : List Nat),
    x ∉ L1 → neighbors p (L1 ++ x :: L2) x = some (lastD p L1, L2.head?)
  | [], _, x, _, _ => by simp [neighbors, lastD]
  | y :: ys, p, x, L2, h => by
    have hy : y ≠ x := fun he => h (he ▸ List.mem_cons_self y ys)
    simp only [List.cons_append, neighbors, if_neg hy, lastD]
    exact neighbors_split ys (some y) x L2 (fun hm => h (List.mem_cons_of_mem y hm))

theorem neighbors_isSome : ∀ (L : List Nat) (p : Option Nat) (x : Nat),
    x ∈ L → (neighbors p L x).isSome = true
  | [], _, _, h => absurd h (List.not_mem_nil _)
  | y :: ys, p, x, h => by
    by_cases hy : y = x
    · simp [neighbors, hy]
    · simp only [neighbors, if_neg hy]
      exact neighbors_isSome ys (some y) x (by
        rcases List.mem_cons.mp h with he | hm
        · exact absurd he.symm hy
        · exact hm)

theorem nodeOf_not_mem (L : List Nat) (x : Nat) (h : x ∉ L) : nodeOf L (some x) = none := by
  simp [nodeOf, neighbors_not_mem L none x h]

theorem nodeOf_split (L1 L2 : List Nat) (x : Nat) (h : x ∉ L1) :
    nodeOf (L1 ++ x :: L2) (some x) = some { prev := lastD none L1, next := L2.head? } := by
  simp [nodeOf, neighbors_split L1 none x L2 h]

theorem nodeOf_isSome_iff (L : List Nat) (x : Nat) :
    (nodeOf L (some x)).isSome = true ↔ x ∈ L := by
  constructor
  · intro h
    by_contra hx
    rw [nodeOf_not_mem L x hx] at h
    simp at h
  · intro h
    simp [nodeOf, Option.isSome_map]
    exact neighbors_isSome L none x h

theorem read_sentinel (s : Store) (a : Nat) (L : List Nat) (h : represents s a L) :
    read s a none = { prev := lastD none L, next := L.head? } := by
  rcases h.2.2 with hs | ⟨hL, hs⟩
  · rw [read, hs]; rfl
  · subst hL
    rw [read, hs]
    rfl

theorem head?_append_of_ne_nil (X Y : List Nat) (h : X ≠ []) : (X ++ Y).head? = X.head? := by
  cases X with
  | nil => exact absurd rfl h
  | cons x xs => rfl

theorem lastD_some_of_ne_nil : ∀ (L : List Nat) (p : Option Nat), L ≠ [] → ∃ t, lastD p L = some t
  | [], _, h => absurd rfl h
  | [x], _, _ => ⟨x, rfl⟩
  | x :: y :: ys, _, _ => lastD_some_of_ne_nil (y :: ys) (some x) (by simp)

theorem nodeOf_none (L : List Nat) :
    nodeOf L none = some { prev := lastD none L, next := L.head? } := rfl

theorem nodeOf_mid_suffix (X Y Z : List Nat) (x : Nat) (hx : x ∈ X) (hnd : X.Nodup)
    (hlast : lastD none X ≠ some x) : nodeOf (X ++ Y) (some x) = nodeOf (X ++ Z) (some x) := by
  obtain ⟨A, B, rfl⟩ := List.append_of_mem hx
  have hxA : x ∉ A := fun hmem =>
    (List.disjoint_of_nodup_append hnd) hmem (List.mem_cons_self x B)
  cases B with
  | nil =>
    refine absurd ?_ hlast
    rw [lastD_append]
    rfl
  | cons b B' =>
    rw [show (A ++ x :: b :: B') ++ Y = A ++ x :: (b :: B' ++ Y) by simp,
      show (A ++ x :: b :: B') ++ Z = A ++ x :: (b :: B' ++ Z) by simp,
      nodeOf_split A (b :: B' ++ Y) x hxA, nodeOf_split A (b :: B' ++ Z) x hxA]
    rfl

theorem nodeOf_mid_prefix (P Q C D : List Nat) (x : Nat) (hC : C ≠ []) (hxP : x ∉ P)
    (hxQ : x ∉ Q) (hxC : x ∉ C) :
    nodeOf (P ++ (C ++ x :: D)) (some x) = nodeOf (Q ++ (C ++ x :: D)) (some x) := by
  have hP : x ∉ P ++ C := by simp [hxP, hxC]
  have hQ : x ∉ Q ++ C := by simp [hxQ, hxC]
  rw [show P ++ (C ++ x :: D) = (P ++ C) ++ x :: D by simp,
    show Q ++ (C ++ x :: D) = (Q ++ C) ++ x :: D by simp,
    nodeOf_split (P ++ C) D x hP, nodeOf_split (Q ++ C) D x hQ,
    lastD_append, lastD_append, lastD_irrel C hC (lastD none P) (lastD none Q)]

theorem append_rep (s : Store) (a : Nat) (L : List Nat) (kid : Nat)
    (hrep : represents s a L) (hkid : kid ∉ L) :
    represents (append s a kid) a (L ++ [kid]) := by
  obtain ⟨hnd, hnode, hsent⟩ := hrep
  have hread := read_sentinel s a L ⟨hnd, hnode, hsent⟩
  have hnd' : (L ++ [kid]).Nodup := by
    rw [List.nodup_append]
    refine ⟨hnd, List.nodup_singleton kid, ?_⟩
    intro x hx hx'
    rw [List.mem_singleton] at hx'
    exact hkid (hx' ▸ hx)
  by_cases hLnil : L = []
  · subst hLnil
    have e0 : read s a none = { prev := none, next := none } := by
      rw [hread]
      rfl
    have e1 : read (write s a none { prev := some kid, next := none }) a none =
        { prev := some kid, next := none } := by
      unfold read
      rw [write_self]
      rfl
    have estep : append s a kid =
        write (write (write s a none { prev := some kid, next := none }) a none
          { prev := some kid, next := some kid }) a (some kid) { prev := none, next := none } := by
      simp only [append, e0]
      simp only [e1]
    refine ⟨hnd', ?_, Or.inl ?_⟩
    · intro i
      rw [estep]
      by_cases hik : i = kid
      · subst hik
        rw [write_self, show ([] : List Nat) ++ [i] = [] ++ i :: [] from rfl,
          nodeOf_split [] [] i (List.not_mem_nil i)]
        rfl
      · rw [write_ne _ _ (some kid) _ _ (some i) (by simp [hik]),
          write_ne _ _ none _ _ (some i) (by simp),
          write_ne _ _ none _ _ (some i) (by simp), hnode i,
          nodeOf_not_mem [] i (List.not_mem_nil i),
          nodeOf_not_mem ([] ++ [kid]) i (by simp [hik])]
    · rw [estep, write_ne _ _ (some kid) _ _ none (by simp), write_self]
      rfl
  · obtain ⟨t, ht⟩ := lastD_some_of_ne_nil L none hLnil
    rcases lastD_split L none t ht with ⟨h1, _⟩ | ⟨L1, rfl⟩
    · exact absurd h1 hLnil
    have htL1 : t ∉ L1 := fun hm =>
      (List.disjoint_of_nodup_append hnd) hm (List.mem_singleton.mpr rfl)
    have hkt : kid ≠ t := fun he => hkid (by simp [he])
    have hkL1 : kid ∉ L1 := fun hm => hkid (by simp [hm])
    have hlast : lastD none (L1 ++ [t]) = some t := by
      rw [lastD_append]
      rfl
    have e0 : read s a none = { prev := some t, next := (L1 ++ [t]).head? } := by
      rw [hread, hlast]
    have et : s a (some t) = some { prev := lastD none L1, next := none } := by
      rw [hnode t, show L1 ++ [t] = L1 ++ t :: [] from rfl, nodeOf_split L1 [] t htL1]
      rfl
    have e1 : read (write s a none { prev := some kid, next := (L1 ++ [t]).head? }) a (some t) =
        { prev := lastD none L1, next := none } := by
      unfold read
      rw [write_ne _ _ none _ _ (some t) (by simp), et]
      rfl
    have estep : append s a kid =
        write (write (write s a none { prev := some kid, next := (L1 ++ [t]).head? }) a (some t)
          { prev := lastD none L1, next := some kid }) a (some kid)
          { prev := some t, next := none } := by
      simp only [append, e0]
      simp only [e1]
    refine ⟨hnd', ?_, Or.inl ?_⟩
    · intro i
      rw [estep]
      by_cases hik : i = kid
      · subst hik
        rw [write_self, show (L1 ++ [t]) ++ [i] = (L1 ++ [t]) ++ i :: [] from rfl,
          nodeOf_split (L1 ++ [t]) [] i hkid, hlast]
        rfl
      · rw [write_ne _ _ (some kid) _ _ (some i) (by simp [hik])]
        by_cases hit : i = t
        · subst hit
          rw [write_self, show (L1 ++ [i]) ++ [kid] = L1 ++ i :: [kid] by simp,
            nodeOf_split L1 [kid] i htL1]
          rfl
        · rw [write_ne _ _ (some t) _ _ (some i) (by simp [hit]),
            write_ne _ _ none _ _ (some i) (by simp), hnode i]
          by_cases hiL : i ∈ L1 ++ [t]
          · calc nodeOf (L1 ++ [t]) (some i)
                = nodeOf ((L1 ++ [t]) ++ []) (some i) := by rw [List.append_nil]
              _ = nodeOf ((L1 ++ [t]) ++ [kid]) (some i) := by
                  refine nodeOf_mid_suffix (L1 ++ [t]) [] [kid] i hiL hnd ?_
                  rw [hlast]
                  exact fun hc => hit (Option.some.inj hc).symm
          · rw [nodeOf_not_mem _ _ hiL, nodeOf_not_mem ((L1 ++ [t]) ++ [kid]) i (by simp_all)]
    · rw [estep, write_ne _ _ (some kid) _ _ none (by simp),
        write_ne _ _ (some t) _ _ none (by simp), write_self, nodeOf_none,
        lastD_append (L1 ++ [t]) none [kid],
        head?_append_of_ne_nil (L1 ++ [t]) [kid] (by simp)]
      rfl

theorem read_write_self (s : Store) (a : Nat) (k : Option Nat) (v : KittyLinkedItem) :
    read (write s a k v) a k = v := by
  unfold read
  rw [write_self]
  rfl

theorem read_write_ne (s : Store) (a : Nat) (k : Option Nat) (v : KittyLinkedItem)
    (k' : Option Nat) (h : k' ≠ k) : read (write s a k v) a k' = read s a k' := by
  unfold read
  rw [write_ne s a k v a k' h]

theorem read_eraseKey_ne (s : Store) (a : Nat) (k k' : Option Nat) (h : k' ≠ k) :
    read (eraseKey s a k) a k' = read s a k' := by
  unfold read
  rw [eraseKey_ne s a k a k' h]

theorem read_of_eq (s : Store) (a : Nat) (k : Option Nat) (v : KittyLinkedItem)
    (h : s a k = some v) : read s a k = v := by
  unfold read
  rw [h]
  rfl

theorem remove_eq_of_absent (s : Store) (a kid : Nat) (h : s a (some kid) = none) :
    remove s a kid = s := by
  unfold remove
  rw [h]

theorem remove_eq_of_present (s : Store) (a kid : Nat) (item : KittyLinkedItem)
    (h : s a (some kid) = some item) :
    remove s a kid =
      write (write (eraseKey s a (some kid)) a item.prev
        { prev := (read (eraseKey s a (some kid)) a item.prev).prev, next := item.next }) a
        item.next
        { prev := item.prev,
          next := (read (write (eraseKey s a (some kid)) a item.prev
            { prev := (read (eraseKey s a (some kid)) a item.prev).prev, next := item.next }) a
            item.next).next } := by
  unfold remove
  rw [h]

theorem nodeOf_erase_right (L1 L2' : List Nat) (kid hh i : Nat)
    (hnd : (L1 ++ kid :: hh :: L2').Nodup) (hi : i ∈ L2') :
    nodeOf (L1 ++ kid :: hh :: L2') (some i) = nodeOf (L1 ++ hh :: L2') (some i) := by
  obtain ⟨A2, B2, rfl⟩ := List.append_of_mem hi
  have hiL1 : i ∉ L1 := fun hm => (List.disjoint_of_nodup_append hnd) hm (by simp)
  have h2 := hnd.of_append_right
  have hik : i ≠ kid := by
    intro he
    exact (List.nodup_cons.mp h2).1 (by simp [← he])
  have h3 := (List.nodup_cons.mp h2).2
  have hih : i ≠ hh := by
    intro he
    exact (List.nodup_cons.mp h3).1 (by simp [← he])
  have h4 := (List.nodup_cons.mp h3).2
  have hiA2 : i ∉ A2 := fun hm => (List.disjoint_of_nodup_append h4) hm (by simp)
  rw [show L1 ++ kid :: hh :: (A2 ++ i :: B2) = (L1 ++ [kid]) ++ ((hh :: A2) ++ i :: B2) by simp,
    show L1 ++ hh :: (A2 ++ i :: B2) = L1 ++ ((hh :: A2) ++ i :: B2) by simp]
  exact nodeOf_mid_prefix (L1 ++ [kid]) L1 (hh :: A2) B2 i (by simp)
    (by simp [hiL1, hik]) hiL1 (by simp [hih, hiA2])

theorem remove_rep (s : Store) (a : Nat) (L : List Nat) (kid : Nat)
    (hrep : represents s a L) : represents (remove s a kid) a (L.erase kid) := by
  obtain ⟨hnd, hnode, hsent⟩ := hrep
  by_cases hmem : kid ∈ L
  case neg =>
    rw [remove_eq_of_absent s a kid (by rw [hnode kid, nodeOf_not_mem L kid hmem]),
      List.erase_of_not_mem hmem]
    exact ⟨hnd, hnode, hsent⟩
  case pos =>
    obtain ⟨L1, L2, rfl⟩ := List.append_of_mem hmem
    have hdisj := List.disjoint_of_nodup_append hnd
    have hkL1 : kid ∉ L1 := fun hm => hdisj hm (List.mem_cons_self kid L2)
    have hcons : (kid :: L2).Nodup := hnd.of_append_right
    have hkL2 : kid ∉ L2 := (List.nodup_cons.mp hcons).1
    have hndL2 : L2.Nodup := (List.nodup_cons.mp hcons).2
    have hndL1 : L1.Nodup := hnd.of_append_left
    have hnd12 : (L1 ++ L2).Nodup := by
      rw [List.nodup_append]
      exact ⟨hndL1, hndL2, fun x h1 h2 => hdisj h1 (List.mem_cons_of_mem kid h2)⟩
    have hitem : s a (some kid) = some { prev := lastD none L1, next := L2.head? } := by
      rw [hnode kid, nodeOf_split L1 L2 kid hkL1]
    rw [List.erase_append_right _ hkL1, List.erase_cons_head]
    cases L2 with
    | nil =>
      by_cases hL1 : L1 = []
      · subst hL1
        have hitemA : s a (some kid) = some { prev := none, next := none } := hitem
        have epre : read (eraseKey s a (some kid)) a none =
            { prev := some kid, next := some kid } := by
          rw [read_eraseKey_ne s a (some kid) none (by simp),
            read_sentinel s a ([] ++ kid :: []) ⟨hnd, hnode, hsent⟩]
          rfl
        have estepA : remove s a kid =
            write (write (eraseKey s a (some kid)) a none { prev := some kid, next := none }) a
              none { prev := none, next := none } := by
          rw [remove_eq_of_present s a kid _ hitemA]
          simp only [epre, read_write_self]
        refine ⟨List.nodup_nil, ?_, Or.inl ?_⟩
        · intro i
          rw [estepA, write_ne _ _ none _ _ (some i) (by simp),
            write_ne _ _ none _ _ (some i) (by simp)]
          by_cases hik : i = kid
          · subst hik
            rw [eraseKey_self, nodeOf_not_mem ([] ++ []) i (by simp)]
          · rw [eraseKey_ne _ _ (some kid) _ (some i) (by simp [hik]), hnode i,
              nodeOf_not_mem ([] ++ kid :: []) i (by simp [hik]),
              nodeOf_not_mem ([] ++ []) i (by simp)]
        · rw [estepA, write_self]
          rfl
      · obtain ⟨t, ht⟩ := lastD_some_of_ne_nil L1 none hL1
        rcases lastD_split L1 none t ht with ⟨hc, _⟩ | ⟨A, rfl⟩
        · exact absurd hc hL1
        have htA : t ∉ A := fun hm =>
          (List.disjoint_of_nodup_append hndL1) hm (by simp)
        have htk : t ≠ kid := fun he => hkL1 (he ▸ (by simp : t ∈ A ++ [t]))
        have hlt : lastD none (A ++ [t]) = some t := by
          rw [lastD_append]
          rfl
        have hitemC : s a (some kid) = some { prev := some t, next := none } := by
          rw [hitem, hlt]
          rfl
        have hnodet : s a (some t) = some { prev := lastD none A, next := some kid } := by
          rw [hnode t, show (A ++ [t]) ++ kid :: [] = A ++ t :: [kid] by simp,
            nodeOf_split A [kid] t htA]
          rfl
        have epreC : read (eraseKey s a (some kid)) a (some t) =
            { prev := lastD none A, next := some kid } := by
          rw [read_eraseKey_ne s a (some kid) (some t) (by simp [htk]),
            read_of_eq s a (some t) _ hnodet]
        have hsentC : read (eraseKey s a (some kid)) a none =
            { prev := some kid, next := (A ++ [t]).head? } := by
          rw [read_eraseKey_ne s a (some kid) none (by simp),
            read_sentinel s a ((A ++ [t]) ++ kid :: []) ⟨hnd, hnode, hsent⟩,
            lastD_append (A ++ [t]) none, head?_append_of_ne_nil (A ++ [t]) _ (by simp)]
          rfl
        have enextC : read (write (eraseKey s a (some kid)) a (some t)
            { prev := lastD none A, next := none }) a none =
            { prev := some kid, next := (A ++ [t]).head? } := by
          rw [read_write_ne _ _ (some t) _ none (by simp), hsentC]
        have estepC : remove s a kid =
            write (write (eraseKey s a (some kid)) a (some t)
              { prev := lastD none A, next := none }) a none
              { prev := some t, next := (A ++ [t]).head? } := by
          rw [remove_eq_of_present s a kid _ hitemC]
          simp only [epreC, enextC]
        refine ⟨by simpa using hnd12, ?_, Or.inl ?_⟩
        · intro i
          rw [estepC, write_ne _ _ none _ _ (some i) (by simp)]
          by_cases hit : i = t
          · subst hit
            rw [write_self, show (A ++ [i]) ++ ([] : List Nat) = A ++ i :: [] by simp,
              nodeOf_split A [] i htA]
            rfl
          · rw [write_ne _ _ (some t) _ _ (some i) (by simp [hit])]
            by_cases hik : i = kid
            · subst hik
              rw [eraseKey_self, nodeOf_not_mem ((A ++ [t]) ++ []) i (by simpa using hkL1)]
            · rw [eraseKey_ne _ _ (some kid) _ (some i) (by simp [hik]), hnode i]
              by_cases hiL : i ∈ A ++ [t]
              · have hne : lastD none (A ++ [t]) ≠ some i := by
                  rw [hlt]
                  exact fun hc => hit (Option.some.inj hc).symm
                exact nodeOf_mid_suffix (A ++ [t]) (kid :: []) [] i hiL hndL1 hne
              · have hnm : i ∉ (A ++ [t]) ++ kid :: [] := by
                  intro hmm
                  rcases List.mem_append.mp hmm with h1 | h2
                  · exact hiL h1
                  · rcases List.mem_cons.mp h2 with h3 | h4
                    · exact hik h3
                    · exact List.not_mem_nil i h4
                rw [nodeOf_not_mem ((A ++ [t]) ++ kid :: []) i hnm,
                  nodeOf_not_mem ((A ++ [t]) ++ []) i (by simpa using hiL)]
        · rw [estepC, write_self, nodeOf_none, List.append_nil, hlt]
    | cons hh L2' =>
      have hhk : hh ≠ kid := fun he => hkL2 (by simp [he])
      have hhL2' : hh ∉ L2' := (List.nodup_cons.mp hndL2).1
      have hndL2' : L2'.Nodup := (List.nodup_cons.mp hndL2).2
      have hhL1 : hh ∉ L1 := fun hm => hdisj hm (by simp)
      by_cases hL1 : L1 = []
      · subst hL1
        have hitemB : s a (some kid) = some { prev := none, next := some hh } := hitem
        have hsentB : read s a none =
            { prev := lastD none (hh :: L2'), next := some kid } := by
          rw [read_sentinel s a ([] ++ kid :: hh :: L2') ⟨hnd, hnode, hsent⟩]
          rfl
        have epreB : read (eraseKey s a (some kid)) a none =
            { prev := lastD none (hh :: L2'), next := some kid } := by
          rw [read_eraseKey_ne s a (some kid) none (by simp), hsentB]
        have hnodeh : s a (some hh) = some { prev := some kid, next := L2'.head? } := by
          rw [hnode hh, show [] ++ kid :: hh :: L2' = [kid] ++ hh :: L2' from rfl,
            nodeOf_split [kid] L2' hh (by simp [hhk])]
          rfl
        have enextB : read (write (eraseKey s a (some kid)) a none
            { prev := lastD none (hh :: L2'), next := some hh }) a (some hh) =
            { prev := some kid, next := L2'.head? } := by
          rw [read_write_ne _ _ none _ (some hh) (by simp),
            read_eraseKey_ne s a (some kid) (some hh) (by simp [hhk]),
            read_of_eq s a (some hh) _ hnodeh]
        have estepB : remove s a kid =
            write (write (eraseKey s a (some kid)) a none
              { prev := lastD none (hh :: L2'), next := some hh }) a (some hh)
              { prev := none, next := L2'.head? } := by
          rw [remove_eq_of_present s a kid _ hitemB]
          simp only [epreB, enextB]
        refine ⟨hnd12, ?_, Or.inl ?_⟩
        · intro i
          rw [estepB]
          by_cases hih : i = hh
          · subst hih
            rw [write_self, nodeOf_split [] L2' i (List.not_mem_nil i)]
            rfl
          · rw [write_ne _ _ (some hh) _ _ (some i) (by simp [hih]),
              write_ne _ _ none _ _ (some i) (by simp)]
            by_cases hik : i = kid
            · subst hik
              rw [eraseKey_self, nodeOf_not_mem ([] ++ hh :: L2') i (by simpa using hkL2)]
            · rw [eraseKey_ne _ _ (some kid) _ (some i) (by simp [hik]), hnode i]
              by_cases hiL : i ∈ L2'
              · exact nodeOf_erase_right [] L2' kid hh i hnd hiL
              · rw [nodeOf_not_mem ([] ++ kid :: hh :: L2') i (by simp [hik, hih, hiL]),
                  nodeOf_not_mem ([] ++ hh :: L2') i (by simp [hih, hiL])]
        · rw [estepB, write_ne _ _ (some hh) _ _ none (by simp), write_self, nodeOf_none]
          rfl
      · obtain ⟨t, ht⟩ := lastD_some_of_ne_nil L1 none hL1
        rcases lastD_split L1 none t ht with ⟨hc, _⟩ | ⟨A, rfl⟩
        · exact absurd hc hL1
        have htA : t ∉ A := fun hm =>
          (List.disjoint_of_nodup_append hndL1) hm (by simp)
        have htk : t ≠ kid := fun he => hkL1 (he ▸ (by simp : t ∈ A ++ [t]))
        have hth : t ≠ hh := fun he =>
          hdisj (by simp : t ∈ A ++ [t]) (by simp [he])
        have hlt : lastD none (A ++ [t]) = some t := by
          rw [lastD_append]
          rfl
        have hitemD : s a (some kid) = some { prev := some t, next := some hh } := by
          rw [hitem, hlt]
          rfl
        have hnodet : s a (some t) = some { prev := lastD none A, next := some kid } := by
          rw [hnode t,
            show (A ++ [t]) ++ kid :: hh :: L2' = A ++ t :: (kid :: hh :: L2') by simp,
            nodeOf_split A (kid :: hh :: L2') t htA]
          rfl
        have epreD : read (eraseKey s a (some kid)) a (some t) =
            { prev := lastD none A, next := some kid } := by
          rw [read_eraseKey_ne s a (some kid) (some t) (by simp [htk]),
            read_of_eq s a (some t) _ hnodet]
        have hhmem : hh ∉ (A ++ [t]) ++ [kid] := by
          intro hmm
          rcases List.mem_append.mp hmm with h1 | h2
          · exact hhL1 h1
          · exact hhk (List.mem_singleton.mp h2)
        have hnodeh : s a (some hh) = some { prev := some kid, next := L2'.head? } := by
          rw [hnode hh,
            show (A ++ [t]) ++ kid :: hh :: L2' = ((A ++ [t]) ++ [kid]) ++ hh :: L2' by simp,
            nodeOf_split ((A ++ [t]) ++ [kid]) L2' hh hhmem, lastD_append (A ++ [t]) none]
          rfl
        have enextD : read (write (eraseKey s a (some kid)) a (some t)
            { prev := lastD none A, next := some hh }) a (some hh) =
            { prev := some kid, next := L2'.head? } := by
          rw [read_write_ne _ _ (some t) _ (some hh) (by simp [Ne.symm hth]),
            read_eraseKey_ne s a (some kid) (some hh) (by simp [hhk]),
            read_of_eq s a (some hh) _ hnodeh]
        have estepD : remove s a kid =
            write (write (eraseKey s a (some kid)) a (some t)
              { prev := lastD none A, next := some hh }) a (some hh)
              { prev := some t, next := L2'.head? } := by
          rw [remove_eq_of_present s a kid _ hitemD]
          simp only [epreD, enextD]
        refine ⟨hnd12, ?_, Or.inl ?_⟩
        · intro i
          rw [estepD]
          by_cases hih : i = hh
          · subst hih
            rw [write_self, nodeOf_split (A ++ [t]) L2' i hhL1, hlt]
          · rw [write_ne _ _ (some hh) _ _ (some i) (by simp [hih])]
            by_cases hit : i = t
            · subst hit
              rw [write_self,
                show (A ++ [i]) ++ hh :: L2' = A ++ i :: (hh :: L2') by simp,
                nodeOf_split A (hh :: L2') i htA]
              rfl
            · rw [write_ne _ _ (some t) _ _ (some i) (by simp [hit])]
              by_cases hik : i = kid
              · subst hik
                have hnm : i ∉ (A ++ [t]) ++ hh :: L2' := by
                  intro hmm
                  rcases List.mem_append.mp hmm with h1 | h2
                  · exact hkL1 h1
                  · exact hkL2 h2
                rw [eraseKey_self, nodeOf_not_mem ((A ++ [t]) ++ hh :: L2') i hnm]
              · rw [eraseKey_ne _ _ (some kid) _ (some i) (by simp [hik]), hnode i]
                by_cases hiL1m : i ∈ A ++ [t]
                · have hne : lastD none (A ++ [t]) ≠ some i := by
                    rw [hlt]
                    exact fun hc => hit (Option.some.inj hc).symm
                  exact nodeOf_mid_suffix (A ++ [t]) (kid :: hh :: L2') (hh :: L2') i hiL1m
                    hndL1 hne
                · by_cases hiL2 : i ∈ L2'
                  · exact nodeOf_erase_right (A ++ [t]) L2' kid hh i hnd hiL2
                  · rw [nodeOf_not_mem ((A ++ [t]) ++ kid :: hh :: L2') i
                        (by simp [hik, hih, hiL2]; simpa using hiL1m),
                      nodeOf_not_mem ((A ++ [t]) ++ hh :: L2') i
                        (by simp [hih, hiL2]; simpa using hiL1m)]
        · rw [estepD, write_ne _ _ (some hh) _ _ none (by simp),
            write_ne _ _ (some t) _ _ none (by simp),
            eraseKey_ne _ _ (some kid) _ none (by simp)]
          rcases hsent with hs | ⟨hc, _⟩
          · rw [hs, nodeOf_none, nodeOf_none, lastD_append, lastD_append,
              head?_append_of_ne_nil (A ++ [t]) _ (by simp),
              head?_append_of_ne_nil (A ++ [t]) _ (by simp), lastD_append, lastD_append]
            rfl
          · exact absurd hc (by simp)

theorem represents_empty (a : Nat) : represents emptyStore a [] :=
  ⟨List.nodup_nil, fun _ => rfl, Or.inr ⟨rfl, rfl⟩⟩

theorem represents_mem_iff (s : Store) (a : Nat) (L : List Nat) (hrep : represents s a L)
    (i : Nat) : (s a (some i)).isSome = true ↔ i ∈ L := by
  rw [hrep.2.1 i]
  exact nodeOf_isSome_iff L i

theorem walkNextFrom_spec (s : Store) (a : Nat) (L : List Nat) (hrep : represents s a L) :
    ∀ (L2 L1 : List Nat) (fuel : Nat), L = L1 ++ L2 → L2.length ≤ fuel →
      walkNextFrom s a L2.head? fuel = L2
  | [], _, fuel, _, _ => by cases fuel <;> rfl
  | hh :: L2', L1, fuel, hsplit, hfuel => by
    cases fuel with
    | zero => exact absurd hfuel (by simp)
    | succ f =>
      have hhL1 : hh ∉ L1 := fun hm =>
        (List.disjoint_of_nodup_append (hsplit ▸ hrep.1)) hm (by simp)
      have hnodeh : s a (some hh) = some { prev := lastD none L1, next := L2'.head? } := by
        rw [hrep.2.1 hh, hsplit, nodeOf_split L1 L2' hh hhL1]
      have hread : (read s a (some hh)).next = L2'.head? := by
        rw [read_of_eq s a (some hh) _ hnodeh]
      show walkNextFrom s a (some hh) (f + 1) = hh :: L2'
      simp only [walkNextFrom]
      rw [hread]
      exact congrArg (List.cons hh)
        (walkNextFrom_spec s a L hrep L2' (L1 ++ [hh]) f (by rw [hsplit]; simp)
          (by simpa using Nat.le_of_succ_le_succ hfuel))

theorem walkPrevFrom_spec (s : Store) (a : Nat) (L : List Nat) (hrep : represents s a L) :
    ∀ (R L2 : List Nat) (fuel : Nat), L = R.reverse ++ L2 → R.length ≤ fuel →
      walkPrevFrom s a R.head? fuel = R
  | [], _, fuel, _, _ => by cases fuel <;> rfl
  | t :: R', L2, fuel, hsplit, hfuel => by
    cases fuel with
    | zero => exact absurd hfuel (by simp)
    | succ f =>
      have hsplit' : L = R'.reverse ++ t :: L2 := by
        rw [hsplit]
        simp
      have htR' : t ∉ R'.reverse := fun hm =>
        (List.disjoint_of_nodup_append (hsplit' ▸ hrep.1)) hm (by simp)
      have hnodet : s a (some t) = some { prev := lastD none R'.reverse, next := L2.head? } := by
        rw [hrep.2.1 t, hsplit', nodeOf_split R'.reverse L2 t htR']
      have hread : (read s a (some t)).prev = R'.head? := by
        rw [read_of_eq s a (some t) _ hnodet, lastD_reverse, orD_none_right]
      show walkPrevFrom s a (some t) (f + 1) = t :: R'
      simp only [walkPrevFrom]
      rw [hread]
      exact congrArg (List.cons t)
        (walkPrevFrom_spec s a L hrep R' (t :: L2) f hsplit'
          (by simpa using Nat.le_of_succ_le_succ hfuel))

theorem walk_spec (s : Store) (a : Nat) (L : List Nat) (fuel : Nat) (hrep : represents s a L)
    (hfuel : L.length ≤ fuel) : walkNext s a fuel = L ∧ walkPrev s a fuel = L.reverse := by
  constructor
  · have hsn : (read s a none).next = L.head? := by rw [read_sentinel s a L hrep]
    rw [walkNext, hsn]
    exact walkNextFrom_spec s a L hrep L [] fuel (by simp) hfuel
  · have hsp : (read s a none).prev = L.reverse.head? := by
      rw [read_sentinel s a L hrep]
      show lastD none L = L.reverse.head?
      conv_lhs => rw [← List.reverse_reverse L]
      rw [lastD_reverse, orD_none_right]
    rw [walkPrev, hsp]
    exact walkPrevFrom_spec s a L hrep L.reverse [] fuel (by simp) (by simpa using hfuel)

theorem appendAll_rep : ∀ (ids : List Nat) (s : Store) (a : Nat) (M : List Nat),
    represents s a M → (M ++ ids).Nodup → represents (appendAll s a ids) a (M ++ ids)
  | [], _, _, _, hrep, _ => by simpa using hrep
  | x :: ids', s, a, M, hrep, hnd => by
    have hxM : x ∉ M := fun hm => (List.disjoint_of_nodup_append hnd) hm (by simp)
    have h2 := appendAll_rep ids' (append s a x) a (M ++ [x])
      (append_rep s a M x hrep hxM) (by simpa using hnd)
    rw [show M ++ x :: ids' = (M ++ [x]) ++ ids' by simp]
    exact h2

theorem removeAll_rep : ∀ (ids : List Nat) (s : Store) (a : Nat) (M : List Nat),
    represents s a M →
    represents (removeAll s a ids) a (ids.foldl (fun acc r => acc.erase r) M)
  | [], _, _, _, hrep => hrep
  | x :: ids', s, a, M, hrep =>
    removeAll_rep ids' (remove s a x) a (M.erase x) (remove_rep s a M x hrep)

theorem foldl_erase_filter : ∀ (R L : List Nat), L.Nodup →
    R.foldl (fun acc r => acc.erase r) L = L.filter (fun x => decide (x ∉ R))
  | [], L, _ => by simp
  | r :: R', L, hnd => by
    have h1 := foldl_erase_filter R' (L.erase r) (hnd.erase r)
    show R'.foldl (fun acc r => acc.erase r) (L.erase r) = _
    rw [h1, hnd.erase_eq_filter r, List.filter_filter]
    refine List.filter_congr ?_
    intro x _
    by_cases hxr : x = r <;> by_cases hxR : x ∈ R' <;> simp [hxr, hxR]

theorem append_acct_ne (s : Store) (a kid a' : Nat) (k : Option Nat) (h : a' ≠ a) :
    append s a kid a' k = s a' k := by
  simp only [append]
  rw [write_acct_ne _ _ _ _ _ _ h, write_acct_ne _ _ _ _ _ _ h, write_acct_ne _ _ _ _ _ _ h]

theorem remove_acct_ne (s : Store) (a kid a' : Nat) (k : Option Nat) (h : a' ≠ a) :
    remove s a kid a' k = s a' k := by
  cases hsk : s a (some kid) with
  | none => rw [remove_eq_of_absent s a kid hsk]
  | some item =>
    rw [remove_eq_of_present s a kid item hsk, write_acct_ne _ _ _ _ _ _ h,
      write_acct_ne _ _ _ _ _ _ h, eraseKey_acct_ne _ _ _ _ _ h]

theorem represents_of_agree (s s' : Store) (a : Nat) (L : List Nat)
    (hag : ∀ k, s' a k = s a k) (hrep : represents s a L) : represents s' a L :=
  ⟨hrep.1, fun i => (hag (some i)).trans (hrep.2.1 i), by
    rcases hrep.2.2 with h | ⟨h1, h2⟩
    · exact Or.inl ((hag none).trans h)
    · exact Or.inr ⟨h1, (hag none).trans h2⟩⟩

theorem remove_single_sentinel (s : Store) (a x : Nat) (hrep : represents s a [x]) :
    remove s a x a none = some { prev := none, next := none } := by
  obtain ⟨hnd, hnode, hsent⟩ := hrep
  have hitem : s a (some x) = some { prev := none, next := none } := by
    have h := hnode x
    rw [show [x] = [] ++ x :: [] from rfl, nodeOf_split [] [] x (List.not_mem_nil x)] at h
    exact h
  have hsentv : read s a none = { prev := some x, next := some x } := by
    rw [read_sentinel s a [x] ⟨hnd, hnode, hsent⟩]
    rfl
  have epre : read (eraseKey s a (some x)) a none = { prev := some x, next := some x } := by
    rw [read_eraseKey_ne s a (some x) none (by simp), hsentv]
  rw [remove_eq_of_present s a x _ hitem]
  simp only [epre, read_write_self]
  rw [write_self]

/-- Concrete store used as a witness input: account 3 owns exactly kitty 7. -/
def singleStore : Store := fun a k =>
  if a = 3 then
    (if k = none then some { prev := some 7, next := some 7 }
     else (if k = some 7 then some { prev := none, next := none } else none))
  else none

/-- Concrete registry state used as a witness input: count 7, nothing stored. -/
def stExample : RegistryState :=
  { kitties := fun _ => none, kittiesCount := 7, owned := emptyStore }

/-- Concrete registry state used as a witness input: kitty 0 exists. -/
def stExample2 : RegistryState :=
  { kitties := fun i => if i = 0 then some [1, 2] else none
    kittiesCount := 1
    owned := emptyStore }

/-- Claim C1 (code bug evaluation): with owner 0 owning exactly kitty 1 (the
state built by appending 1 to the empty store), transfer of kitty 1 from 0 to
account 2 is rejected with RequireOwner, although the sender owns the kitty;
the claimed contract says this transfer must succeed and move the kitty. -/
theorem C1_transfer_sole_owner_rejected :
    transfer (append emptyStore 0 1) 0 2 1 = Except.error KittyError.RequireOwner := by
  rfl

/-- Claim C2: in the reference implementation, a sender owning exactly one
kitty (so that kitty's link node is {prev := none, next := none}) has its
transfer of that kitty rejected with the not-owner error RequireOwner, even
though the sender is the legitimate owner. -/
theorem C2_transfer_single_owner_require_owner (s : Store) (sender dest kid : Nat)
    (h : represents s sender [kid]) :
    transfer s sender dest kid = Except.error KittyError.RequireOwner := by
  have hitem : s sender (some kid) = some { prev := none, next := none } := by
    have hx := h.2.1 kid
    rw [show [kid] = [] ++ kid :: [] from rfl,
      nodeOf_split [] [] kid (List.not_mem_nil kid)] at hx
    exact hx
  unfold transfer
  rw [hitem]
  rfl

/-- Witness for C2, at the concrete store where account 3 owns exactly
kitty 7. -/
theorem C2_witness : transfer singleStore 3 0 7 = Except.error KittyError.RequireOwner :=
  C2_transfer_single_owner_require_owner singleStore 3 0 7
    ⟨by simp, fun i => by
      by_cases hi : i = 7
      · subst hi
        rfl
      · simp [singleStore, nodeOf, neighbors, hi, Ne.symm hi],
      Or.inl rfl⟩

/-- Claim C3: appending distinct ids to an initially empty owner list makes
the forward walk from the sentinel yield exactly those ids in append order,
ending at `none`, and the backward walk their reverse: the walk equalities
hold for every fuel of at least the list's length, so with surplus fuel the
walk must reach the tail's `none` pointer and stop there; in particular,
after appending 1, 2, 3 the stored nodes are sentinel
{prev := some 3, next := some 1}, node 1 {prev := none, next := some 2},
node 2 {prev := some 1, next := some 3}, node 3 {prev := some 2, next := none}. -/
theorem C3_append_walk_order (a : Nat) (L : List Nat) (fuel : Nat) (hL : L.Nodup)
    (hfuel : L.length ≤ fuel) :
    (walkNext (appendAll emptyStore a L) a fuel = L ∧
      walkPrev (appendAll emptyStore a L) a fuel = L.reverse) ∧
    (appendAll emptyStore 0 [1, 2, 3] 0 none = some { prev := some 3, next := some 1 } ∧
      appendAll emptyStore 0 [1, 2, 3] 0 (some 1) = some { prev := none, next := some 2 } ∧
      appendAll emptyStore 0 [1, 2, 3] 0 (some 2) = some { prev := some 1, next := some 3 } ∧
      appendAll emptyStore 0 [1, 2, 3] 0 (some 3) = some { prev := some 2, next := none }) := by
  constructor
  · have hrep : represents (appendAll emptyStore a L) a L := by
      have h := appendAll_rep L emptyStore a [] (represents_empty a) (by simpa using hL)
      simpa using h
    exact walk_spec _ a L fuel hrep hfuel
  · exact ⟨rfl, rfl, rfl, rfl⟩

/-- Witness for C3 at the list [1, 2, 3], with surplus fuel 5 so the walks
demonstrably stop at the tail's `none` pointer. -/
theorem C3_witness :
    (walkNext (appendAll emptyStore 0 [1, 2, 3]) 0 5 = [1, 2, 3] ∧
      walkPrev (appendAll emptyStore 0 [1, 2, 3]) 0 5 = List.reverse [1, 2, 3]) ∧
    (appendAll emptyStore 0 [1, 2, 3] 0 none = some { prev := some 3, next := some 1 } ∧
      appendAll emptyStore 0 [1, 2, 3] 0 (some 1) = some { prev := none, next := some 2 } ∧
      appendAll emptyStore 0 [1, 2, 3] 0 (some 2) = some { prev := some 1, next := some 3 } ∧
      appendAll emptyStore 0 [1, 2, 3] 0 (some 3) = some { prev := some 2, next := none }) :=
  C3_append_walk_order 0 [1, 2, 3] 5 (by decide) (by decide)

/-- Claim C4: from an initially empty owner list, appending the distinct ids
A and then removing the ids of R (in the order given, covering head, tail and
interior elements) leaves a list whose forward walk is exactly A with the
members of R removed, in original relative order. -/
theorem C4_remove_subset_walk (a : Nat) (A R : List Nat) (hA : A.Nodup) :
    walkNext (removeAll (appendAll emptyStore a A) a R) a A.length =
      A.filter (fun x => decide (x ∉ R)) := by
  have hrep : represents (appendAll emptyStore a A) a A := by
    have h := appendAll_rep A emptyStore a [] (represents_empty a) (by simpa using hA)
    simpa using h
  have hrep2 := removeAll_rep R (appendAll emptyStore a A) a A hrep
  rw [foldl_erase_filter R A hA] at hrep2
  exact (walk_spec _ a _ A.length hrep2 (List.length_filter_le _ A)).1

/-- Witness for C4: append [1, 2, 3, 4], remove the tail 4 and the head 1. -/
theorem C4_witness :
    walkNext (removeAll (appendAll emptyStore 0 [1, 2, 3, 4]) 0 [4, 1]) 0
        (List.length [1, 2, 3, 4]) =
      List.filter (fun x => decide (x ∉ [4, 1])) [1, 2, 3, 4] :=
  C4_remove_subset_walk 0 [1, 2, 3, 4] [4, 1] (by decide)

/-- Claim C5: the invariant `represents` (I1 and I2: the stored nodes form a
consistent doubly-linked structure whose forward walk visits exactly the owned
ids in append order and whose backward walk visits the reverse) is preserved
by append under the precondition that the id is not already linked, and by
remove unconditionally; removing the sole element of a one-element list leaves
the sentinel stored as {prev := none, next := none}. -/
theorem C5_invariant_preservation (s : Store) (a kid x : Nat) (L : List Nat) :
    (represents s a L →
      walkNext s a L.length = L ∧ walkPrev s a L.length = L.reverse ∧
        ∀ i, (s a (some i)).isSome = true ↔ i ∈ L) ∧
    (represents s a L → kid ∉ L → represents (append s a kid) a (L ++ [kid])) ∧
    (represents s a L → represents (remove s a kid) a (L.erase kid)) ∧
    (represents s a [x] → remove s a x a none = some { prev := none, next := none }) :=
  ⟨fun h => ⟨(walk_spec s a L L.length h (le_refl _)).1,
      (walk_spec s a L L.length h (le_refl _)).2,
      fun i => represents_mem_iff s a L h i⟩,
    fun h hk => append_rep s a L kid h hk,
    fun h => remove_rep s a L kid h,
    fun h => remove_single_sentinel s a x h⟩

/-- Witness for C5: appending 7 to the empty list of owner 0 yields the
represented list [7]. -/
theorem C5_witness : represents (append emptyStore 0 7) 0 ([] ++ [7]) :=
  (C5_invariant_preservation emptyStore 0 7 7 []).2.1
    ⟨List.nodup_nil, fun _ => rfl, Or.inr ⟨rfl, rfl⟩⟩ (by simp)

/-- Claim C6: removing an id for which the owner has no stored link node is a
complete no-op: the resulting storage is the very same map (every stored link
node, the sentinel included, and every other key unchanged), and no error is
reported (remove is infallible by type). -/
theorem C6_remove_absent_noop (s : Store) (a kid : Nat) (h : s a (some kid) = none) :
    remove s a kid = s :=
  remove_eq_of_absent s a kid h

/-- Witness for C6 at the empty store. -/
theorem C6_witness : remove emptyStore 0 5 = emptyStore :=
  C6_remove_absent_noop emptyStore 0 5 rfl

/-- Claim C7: combine_dna is a pure byte function; for byte-sized inputs and
every bit position i < 8 the output bit equals parent A's bit where the
selector bit is 1 and parent B's bit where it is 0, and the returned byte is
(selector AND dnaA) OR (NOT selector AND dnaB). -/
theorem C7_combine_dna_bit_select (dna1 dna2 selector i : Nat) (h1 : dna1 < 256)
    (h2 : dna2 < 256) (hs : selector < 256) (hi : i < 8) :
    (combine_dna dna1 dna2 selector).testBit i =
      (if selector.testBit i then dna1.testBit i else dna2.testBit i) ∧
    combine_dna dna1 dna2 selector =
      ((selector &&& dna1) ||| ((255 ^^^ selector) &&& dna2)) := by
  constructor
  · have h255 : Nat.testBit 255 i = true := by
      have he : (255 : Nat) = 2 ^ 8 - 1 := by norm_num
      rw [he, Nat.testBit_two_pow_sub_one]
      simp [hi]
    rw [combine_dna, Nat.testBit_lor, Nat.testBit_land, Nat.testBit_land, Nat.testBit_xor,
      h255]
    cases hsel : selector.testBit i <;> simp [hsel]
  · rfl

/-- Witness for C7 at dnaA = 170, dnaB = 15, selector = 204, bit 2. -/
theorem C7_witness :
    ((combine_dna 170 15 204).testBit 2 =
      (if (204 : Nat).testBit 2 then (170 : Nat).testBit 2 else (15 : Nat).testBit 2)) ∧
    combine_dna 170 15 204 = ((204 &&& 170) ||| ((255 ^^^ 204) &&& 15)) :=
  C7_combine_dna_bit_select 170 15 204 2 (by decide) (by decide) (by decide) (by decide)

/-- Claim C8: next_kitty_id returns the current count as the candidate id and
fails with KittiesCountOverflow exactly when the count equals the id type's
maximum value; it mutates nothing (it only reads the count), and create called
at the maximum propagates the overflow error, the aborted call leaving all
storage unchanged. -/
theorem C8_next_id_overflow (maxId : Nat) (st : RegistryState) (sender : Nat)
    (dna : List Nat) :
    (next_kitty_id maxId st = Except.error KittyError.KittiesCountOverflow ↔
      st.kittiesCount = maxId) ∧
    (st.kittiesCount ≠ maxId → next_kitty_id maxId st = Except.ok st.kittiesCount) ∧
    (st.kittiesCount = maxId →
      create maxId st sender dna = Except.error KittyError.KittiesCountOverflow) := by
  refine ⟨⟨fun h => ?_, fun h => ?_⟩, fun h => ?_, fun h => ?_⟩
  · by_contra hc
    simp only [next_kitty_id, if_neg hc] at h
    exact Except.noConfusion h
  · simp only [next_kitty_id, if_pos h]
  · simp only [next_kitty_id, if_neg h]
  · simp only [create, next_kitty_id, if_pos h]

/-- Witness for C8 at a registry whose count equals the maximum 7. -/
theorem C8_witness : create 7 stExample 0 [] = Except.error KittyError.KittiesCountOverflow :=
  (C8_next_id_overflow 7 stExample 0 []).2.2 rfl

/-- Claim C9: do_breed fails with InvalidKittyId whenever either parent lookup
finds no stored record (the first parent is checked first), and when both
parents exist and the two ids are equal it fails with RequireDifferentParent
before any id allocation: the error arises for every count and every maximum,
so the count is never advanced on that failure. -/
theorem C9_breed_errors (maxId : Nat) (st : RegistryState) (sender id1 id2 : Nat)
    (sel k : List Nat) :
    (st.kitties id1 = none →
      do_breed maxId st sender id1 id2 sel = Except.error KittyError.InvalidKittyId) ∧
    (st.kitties id1 = some k → st.kitties id2 = none →
      do_breed maxId st sender id1 id2 sel = Except.error KittyError.InvalidKittyId) ∧
    (st.kitties id1 = some k →
      do_breed maxId st sender id1 id1 sel =
        Except.error KittyError.RequireDifferentParent) := by
  refine ⟨fun h => ?_, fun h1 h2 => ?_, fun h => ?_⟩
  · unfold do_breed
    rw [h]
  · unfold do_breed
    rw [h1, h2]
  · unfold do_breed
    rw [h]
    simp

/-- Witness for C9: breeding kitty 0 with itself fails with
RequireDifferentParent. -/
theorem C9_witness :
    do_breed 1000 stExample2 5 0 0 [] = Except.error KittyError.RequireDifferentParent :=
  (C9_breed_errors 1000 stExample2 5 0 0 [] [1, 2]).2.2 rfl

/-- Claim C10: when the sender has no stored link node for (sender, some id) —
the sender does not own the kitty — transfer completes successfully with no
error, and as a side effect appends the id to the (distinct) destination
account's ownership list. -/
theorem C10_transfer_not_owner_succeeds (s : Store) (sender dest kid : Nat) (L : List Nat)
    (h1 : s sender (some kid) = none) (h2 : sender ≠ dest) (h3 : represents s dest L)
    (h4 : kid ∉ L) :
    ∃ s', transfer s sender dest kid = Except.ok s' ∧ represents s' dest (L ++ [kid]) := by
  refine ⟨remove (append s dest kid) sender kid, ?_, ?_⟩
  · unfold transfer
    rw [h1]
  · exact represents_of_agree _ _ dest (L ++ [kid])
      (fun k => remove_acct_ne (append s dest kid) sender kid dest k (Ne.symm h2))
      (append_rep s dest L kid h3 h4)

/-- Witness for C10: account 0 owns nothing, yet transfer of kitty 5 from 0
to 1 succeeds and account 1 ends up owning [5]. -/
theorem C10_witness :
    ∃ s', transfer emptyStore 0 1 5 = Except.ok s' ∧ represents s' 1 ([] ++ [5]) :=
  C10_transfer_not_owner_succeeds emptyStore 0 1 5 [] rfl (by decide)
    ⟨List.nodup_nil, fun _ => rfl, Or.inr ⟨rfl, rfl⟩⟩ (by simp)

end KittiesPallet
